import Mathlib

/-!
# Verification of the todo-gant-withAI task manager

A shallow embedding of the task-management single-page application:
the JS `Date` day-level calendar arithmetic used by the Gantt chart
(`src/components/GanttChart.tsx`), the task CRUD handlers of `src/App.tsx`,
the list-view sort of `src/components/TaskList.tsx`, the calendar-export URL
builder of `src/services/calendarService.ts`, the AI request sanitization of
`src/services/geminiService.ts`, and the YAML bridge (`yamlService`).

Conventions of the embedding:

* A JS `Date` holding a local midnight is modelled at day resolution: either as
  a civil triple `CivilDate` (year, 1-based month, day of month) or as its
  timestamp `toDays` (days since 1970-01-01, proleptic Gregorian).  The app
  parses and formats dates as `YYYY-MM-DD` strings; the civil triple is that
  string.  The runtime timezone is assumed to be a fixed non-negative UTC
  offset (the app targets JST), so local calendar components and the
  `toISOString` date part agree; sub-day time and timezone shifts are not
  modelled.
* `new Date(y, mIdx, d)` (0-based `mIdx`, both arguments possibly out of
  range) is `jsMkDate`; `setDate`/`setMonth` and the component getters are
  defined from it exactly as the ECMAScript specification normalizes them.
* JS machine floats never overflow for the magnitudes involved (day counts,
  pixel widths), so `Int` is exact.
-/

namespace TodoGantt

/-! ## Calendar core: proleptic Gregorian calendar at day resolution -/

/-- A calendar date as the triple carried by a `YYYY-MM-DD` string:
`month` is 1-based (1 = January), `day` is 1-based. -/
structure CivilDate where
  year : Int
  month : Int
  day : Int
deriving Repr, DecidableEq

/-- Gregorian leap-year rule (as implemented by JS `Date`). -/
def isLeap (y : Int) : Prop := (y % 4 = 0 ∧ y % 100 ≠ 0) ∨ y % 400 = 0

instance (y : Int) : Decidable (isLeap y) := by unfold isLeap; infer_instance

/-- Number of days of month `m` (1-based) of year `y`. -/
def daysInMonth (y m : Int) : Int :=
  if m = 2 then (if isLeap y then 29 else 28)
  else if m = 4 ∨ m = 6 ∨ m = 9 ∨ m = 11 then 30
  else 31

/-- A civil triple denotes an actual calendar day. -/
def CivilDate.Valid (d : CivilDate) : Prop :=
  1 ≤ d.month ∧ d.month ≤ 12 ∧ 1 ≤ d.day ∧ d.day ≤ daysInMonth d.year d.month

instance (d : CivilDate) : Decidable d.Valid := by unfold CivilDate.Valid; infer_instance

/-- Days from January 1 to the first of month `m` in a non-leap year. -/
def cumDaysBeforeMonth (m : Int) : Int :=
  if m ≤ 1 then 0
  else if m = 2 then 31
  else if m = 3 then 59
  else if m = 4 then 90
  else if m = 5 then 120
  else if m = 6 then 151
  else if m = 7 then 181
  else if m = 8 then 212
  else if m = 9 then 243
  else if m = 10 then 273
  else if m = 11 then 304
  else 334

/-- Days from January 1 of year `y` to the first of month `m` of year `y`. -/
def daysBeforeMonth (y m : Int) : Int :=
  cumDaysBeforeMonth m + (if isLeap y then (if 3 ≤ m then 1 else 0) else 0)

/-- Days from year 1 (proleptic) to January 1 of year `y`:
365 per year plus one per leap year strictly before `y`. -/
def daysBeforeYear (y : Int) : Int :=
  365 * (y - 1) + (y - 1) / 4 - (y - 1) / 100 + (y - 1) / 400

/-- The JS timestamp of a civil date at day resolution: days since 1970-01-01
(719162 days lie between 0001-01-01 and 1970-01-01). -/
def toDays (d : CivilDate) : Int :=
  daysBeforeYear d.year + daysBeforeMonth d.year d.month + (d.day - 1) - 719162

/-- 1970-01-01, day 0 of the JS epoch. -/
def epochDate : CivilDate := ⟨1970, 1, 1⟩

/-- The calendar day after `d`. -/
def succDay (d : CivilDate) : CivilDate :=
  if d.day < daysInMonth d.year d.month then ⟨d.year, d.month, d.day + 1⟩
  else if d.month < 12 then ⟨d.year, d.month + 1, 1⟩
  else ⟨d.year + 1, 1, 1⟩

/-- The calendar day before `d`. -/
def predDay (d : CivilDate) : CivilDate :=
  if 1 < d.day then ⟨d.year, d.month, d.day - 1⟩
  else if 1 < d.month then ⟨d.year, d.month - 1, daysInMonth d.year (d.month - 1)⟩
  else ⟨d.year - 1, 12, 31⟩

/-- The civil date of a JS day-resolution timestamp (inverse of `toDays`),
computed by walking day by day from the epoch. -/
def fromDays (z : Int) : CivilDate :=
  if 0 ≤ z then succDay^[z.toNat] epochDate else predDay^[(-z).toNat] epochDate

/-- ECMAScript `new Date(y, mIdx, dayN)` at day resolution: the month index
`mIdx` is 0-based and is normalized into the year first, then an out-of-range
day of month is normalized by continuing the timeline. -/
def jsMkDate (y mIdx dayN : Int) : CivilDate :=
  fromDays (toDays ⟨y + mIdx / 12, mIdx % 12 + 1, 1⟩ + (dayN - 1))

/-- JS `getFullYear()`. -/
def jsGetFullYear (d : CivilDate) : Int := d.year

/-- JS `getMonth()`: 0-based month index. -/
def jsGetMonth (d : CivilDate) : Int := d.month - 1

/-- JS `getDate()`: 1-based day of month. -/
def jsGetDate (d : CivilDate) : Int := d.day

/-- JS `getDay()`: 0 = Sunday … 6 = Saturday.  Day 0 (1970-01-01) was a
Thursday, hence the offset 4. -/
def jsGetDay (d : CivilDate) : Int := (toDays d + 4) % 7

/-- JS `date.setDate(n)` (a fresh normalized date, the original unchanged). -/
def jsSetDate (d : CivilDate) (n : Int) : CivilDate := jsMkDate d.year (d.month - 1) n

/-- JS `date.setMonth(m)` (keeping the day of month, then normalizing). -/
def jsSetMonth (d : CivilDate) (m : Int) : CivilDate := jsMkDate d.year m d.day

/-- JS idiom `date.setDate(date.getDate() + n)`: shift by `n` calendar days. -/
def jsAddDays (d : CivilDate) (n : Int) : CivilDate := jsSetDate d (jsGetDate d + n)

/-- JS idiom `date.setMonth(date.getMonth() + n)`: shift by `n` calendar
months, the day of month overflowing into the next month when the target
month is shorter (ECMAScript normalization). -/
def jsAddMonths (d : CivilDate) (n : Int) : CivilDate := jsSetMonth d (jsGetMonth d + n)

/-! ## Gantt drag-to-reschedule date shifts

From src/components/GanttChart.tsx, handleMouseMove: the drag delta in axis
units is applied to the dates captured at drag start as
setDate(getDate() + deltaUnits) for day view,
setDate(getDate() + deltaUnits * 7) for week view, and
setMonth(getMonth() + deltaUnits) for month view. -/

/-- The Gantt view granularity (GanttViewMode / timeUnit in the source). -/
inductive TimeUnit | day | week | month
deriving Repr, DecidableEq

/-- The date shift applied by the drag logic to one of the original dates. -/
def shiftByUnits (u : TimeUnit) (n : Int) (d : CivilDate) : CivilDate :=
  match u with
  | .day => jsAddDays d n
  | .week => jsAddDays d (n * 7)
  | .month => jsAddMonths d n

/-! ## Task data model (src/types.ts) -/

/-- TaskStatus enum. -/
inductive TaskStatus
  | notStarted
  | inProgress
  | completed
deriving Repr, DecidableEq

/-- TaskPriority enum. -/
inductive TaskPriority
  | high
  | medium
  | low
deriving Repr, DecidableEq

/-- The Task record.  `startDate`/`endDate` are `YYYY-MM-DD` strings in the
source, carried here as the civil triples those strings denote. -/
structure Task where
  id : String
  name : String
  description : Option String
  status : TaskStatus
  priority : TaskPriority
  startDate : CivilDate
  endDate : CivilDate
  dependencies : List String
deriving Repr, DecidableEq

/-- The enum string of a status (the enum values of src/types.ts). -/
def statusText : TaskStatus → String
  | .notStarted => "Not Started"
  | .inProgress => "In Progress"
  | .completed => "Completed"

/-- The enum string of a priority. -/
def priorityText : TaskPriority → String
  | .high => "High"
  | .medium => "Medium"
  | .low => "Low"

/-! ## App.tsx task handlers -/

/-- src/App.tsx handleDeleteTask (the state update performed after the
confirm dialog): drop the task and strip its id from every remaining task's
dependency list. -/
def handleDeleteTask (tasks : List Task) (taskId : String) : List Task :=
  (tasks.filter (fun task => task.id != taskId)).map
    (fun t => { t with dependencies := t.dependencies.filter (fun depId => depId != taskId) })

/-- Scenario task A of the spec: 2024-01-01 → 2024-01-02, no dependencies. -/
def scenarioTaskA : Task :=
  { id := "A", name := "A", description := none, status := .notStarted,
    priority := .medium, startDate := ⟨2024, 1, 1⟩, endDate := ⟨2024, 1, 2⟩,
    dependencies := [] }

/-- Scenario task B of the spec: 2024-01-03 → 2024-01-04, depends on A. -/
def scenarioTaskB : Task :=
  { id := "B", name := "B", description := none, status := .notStarted,
    priority := .medium, startDate := ⟨2024, 1, 3⟩, endDate := ⟨2024, 1, 4⟩,
    dependencies := ["A"] }

/-- An epoch-week task (Tue 1970-01-06 → Thu 1970-01-08), used to exercise
the chart window computation on a concrete input. -/
def scenarioTaskC4 : Task :=
  { id := "C4", name := "C4", description := none, status := .notStarted,
    priority := .medium, startDate := ⟨1970, 1, 6⟩, endDate := ⟨1970, 1, 8⟩,
    dependencies := [] }

/-! ## YAML bridge (src/services/yamlService.ts)

The js-yaml loader is the external collaborator; a loaded document is a
`YamlValue` (floats and a few scalar styles are not distinguished; they play
no role in the claims).  `parseTasksFromYaml` casts the kept raw objects to
Task without conversion, so its result is the raw objects themselves. -/

/-- A YAML document value as loaded by js-yaml. -/
inductive YamlValue
  | vnull
  | vbool (b : Bool)
  | vnum (n : Int)
  | vstr (s : String)
  | vlist (items : List YamlValue)
  | vmap (entries : List (String × YamlValue))
deriving Repr

/-- JS truthiness of a loaded YAML value (objects and arrays are truthy;
null, false, 0 and the empty string are falsy). -/
def truthy : YamlValue → Bool
  | .vnull => false
  | .vbool b => b
  | .vnum n => n != 0
  | .vstr s => s != ""
  | .vlist _ => true
  | .vmap _ => true

/-- JS property access `v[k]`: a mapping field, or undefined (`none`). -/
def lookupField (k : String) : YamlValue → Option YamlValue
  | .vmap entries => entries.lookup k
  | _ => none

/-- Truthiness of `v[k]` (undefined is falsy). -/
def truthyField (k : String) (v : YamlValue) : Bool :=
  match lookupField k v with
  | some x => truthy x
  | none => false

/-- The filter predicate of parseTasksFromYaml:
`task && task.id && task.name`. -/
def keepTask (v : YamlValue) : Bool :=
  truthy v && truthyField "id" v && truthyField "name" v

/-- The task list extracted from a successfully loaded YAML document:
the kept elements of a top-level list, in order; anything else gives `[]`. -/
def tasksOfYaml : YamlValue → List YamlValue
  | .vlist items => items.filter keepTask
  | _ => []

/-- src/services/yamlService.ts parseTasksFromYaml, over an abstract js-yaml
loader `load` (the external collaborator): a loader exception is re-thrown as
an Invalid-YAML error; otherwise the top-level value is filtered. -/
def parseTasksFromYaml (load : String → Except String YamlValue) (yamlString : String) :
    Except String (List YamlValue) :=
  match load yamlString with
  | .ok parsed => .ok (tasksOfYaml parsed)
  | .error e => .error ("Invalid YAML format: " ++ e)

/-! ## App.tsx AI update handler -/

/-- The application state touched by handleYamlUpdateByAi.  The tasks are the
raw parsed objects (see `parseTasksFromYaml`). -/
structure AppState where
  tasks : List YamlValue
  yamlString : String
  error : Option String

/-- src/App.tsx handleYamlUpdateByAi: parse the YAML returned by the AI; on
success replace tasks, yaml text and clear the error; on failure keep the
previous tasks, surface an error message, and still show the offending YAML
text. -/
def handleYamlUpdateByAi (load : String → Except String YamlValue) (st : AppState)
    (newYamlFromAi : String) : AppState :=
  match parseTasksFromYaml load newYamlFromAi with
  | .ok parsedTasks =>
      { tasks := parsedTasks, yamlString := newYamlFromAi, error := none }
  | .error e =>
      { tasks := st.tasks, yamlString := newYamlFromAi,
        error := some ("AI returned invalid YAML or task structure: " ++ e ++
          ". Please check the YAML manually or try a different command.") }

/-! ## List view sort (src/components/TaskList.tsx)

The comparator of sortedTasks maps each task to a numeric key (dates via
getTime(), priority High 3 / Medium 2 / Low 1, status In Progress 2 /
Not Started 1 / Completed 0) and returns -1/0/1, negated for descending.
ECMAScript Array.prototype.sort is required to be stable, and a stable sort
agreeing with a total preorder is unique, so mergeSort with the matching
boolean relation is a faithful model of the sorted output. -/

/-- The four sort keys of the list view. -/
inductive SortKey
  | startDate
  | endDate
  | priority
  | status
deriving Repr, DecidableEq

/-- Sort direction. -/
inductive SortOrder
  | asc
  | desc
deriving Repr, DecidableEq

/-- priority rank: High > Medium > Low. -/
def priorityRank : TaskPriority → Int
  | .high => 3
  | .medium => 2
  | .low => 1

/-- status rank: In Progress > Not Started > Completed. -/
def statusRank : TaskStatus → Int
  | .inProgress => 2
  | .notStarted => 1
  | .completed => 0

/-- The numeric comparison key of a task under a sort key. -/
def sortKeyValue (k : SortKey) (t : Task) : Int :=
  match k with
  | .startDate => toDays t.startDate
  | .endDate => toDays t.endDate
  | .priority => priorityRank t.priority
  | .status => statusRank t.status

/-- The before-or-tied relation of the comparator (comparator value ≤ 0). -/
def sortLe (k : SortKey) (o : SortOrder) (a b : Task) : Bool :=
  match o with
  | .asc => decide (sortKeyValue k a ≤ sortKeyValue k b)
  | .desc => decide (sortKeyValue k b ≤ sortKeyValue k a)

/-- The sorted task list of the list view (stable, ties in original order). -/
def sortedTasks (k : SortKey) (o : SortOrder) (tasks : List Task) : List Task :=
  tasks.mergeSort (sortLe k o)

/-! ## Gantt chart layout (src/components/GanttChart.tsx) -/

/-- Tasks sorted by start date for display
(`[...tasks].sort((a, b) => startA.getTime() - startB.getTime())`). -/
def ganttSortedTasks (tasks : List Task) : List Task :=
  tasks.mergeSort (fun a b => decide (toDays a.startDate ≤ toDays b.startDate))

/-- One forEach step of the chartMinDate/chartMaxDate useMemo:
`if (start < minD) minD = start; if (end > maxD) maxD = end`. -/
def minMaxStep (acc : CivilDate × CivilDate) (task : Task) : CivilDate × CivilDate :=
  (if toDays task.startDate < toDays acc.1 then task.startDate else acc.1,
   if toDays acc.2 < toDays task.endDate then task.endDate else acc.2)

/-- The fold of the chartMinDate/chartMaxDate useMemo: starting from the first
sorted task's dates, widen by every task's start (for the minimum) and end
(for the maximum). -/
def minMaxFold (first : Task) (tasks : List Task) : CivilDate × CivilDate :=
  tasks.foldl minMaxStep (first.startDate, first.endDate)

/-- Outward snapping of the raw [min, max] window to unit boundaries:
month to first/last day of month, week to preceding Monday / following
Sunday (via getDay with Sunday = 0), day unsnapped. -/
def snapWindow (u : TimeUnit) (minD maxD : CivilDate) : CivilDate × CivilDate :=
  match u with
  | .day => (minD, maxD)
  | .week =>
      (jsSetDate minD (jsGetDate minD - jsGetDay minD + (if jsGetDay minD = 0 then -6 else 1)),
       jsSetDate maxD (jsGetDate maxD + (7 - jsGetDay maxD + (if jsGetDay maxD = 0 then -6 else 1) - 1)))
  | .month =>
      (jsMkDate (jsGetFullYear minD) (jsGetMonth minD) 1,
       jsMkDate (jsGetFullYear maxD) (jsGetMonth maxD + 1) 0)

/-- chartMinDate and chartMaxDate for a non-empty task list (the component
renders nothing for an empty list). -/
def chartWindow (u : TimeUnit) (tasks : List Task) : Option (CivilDate × CivilDate) :=
  match ganttSortedTasks tasks with
  | [] => none
  | t0 :: rest =>
      let mm := minMaxFold t0 (t0 :: rest)
      some (snapWindow u mm.1 mm.2)

/-- One while-loop step of getDateUnits: day +1, week +7, month +1 month. -/
def stepUnit (u : TimeUnit) (cur : CivilDate) : CivilDate :=
  match u with
  | .day => jsAddDays cur 1
  | .week => jsAddDays cur 7
  | .month => jsAddMonths cur 1

/-- The getDateUnits while loop (`while (currentDate <= chartMaxDate)`),
with explicit fuel; every step advances the date by at least one day, so the
fuel chosen in `dateUnits` never runs out before the loop condition fails. -/
def dateUnitsGo (u : TimeUnit) (stop : CivilDate) : Nat → CivilDate → List CivilDate
  | 0, _ => []
  | fuel + 1, cur =>
      if toDays cur ≤ toDays stop then cur :: dateUnitsGo u stop fuel (stepUnit u cur)
      else []

/-- The axis columns: unit start dates from chartMinDate to chartMaxDate. -/
def dateUnits (u : TimeUnit) (minD maxD : CivilDate) : List CivilDate :=
  dateUnitsGo u maxD ((toDays maxD - toDays minD).toNat + 1) minD

/-- The exclusive end date of an axis unit, as computed inside
getOffsetUnits: next day, +7 days, or first of next month. -/
def unitEnd (u : TimeUnit) (unitStartDate : CivilDate) : CivilDate :=
  match u with
  | .day => jsMkDate (jsGetFullYear unitStartDate) (jsGetMonth unitStartDate) (jsGetDate unitStartDate + 1)
  | .week => jsMkDate (jsGetFullYear unitStartDate) (jsGetMonth unitStartDate) (jsGetDate unitStartDate + 7)
  | .month => jsMkDate (jsGetFullYear unitStartDate) (jsGetMonth unitStartDate + 1) 1

/-- The counting loop of getOffsetUnits: walk the axis units, stopping at the
first unit whose end lies beyond the target date. -/
def countUnits (u : TimeUnit) (target : CivilDate) : List CivilDate → Int
  | [] => 0
  | unitStartDate :: rest =>
      if toDays target < toDays (unitEnd u unitStartDate) then 0
      else 1 + countUnits u target rest

/-- getOffsetUnits: the 0-based axis column of a date
(`Math.max(0, count - 1)`). -/
def getOffsetUnits (u : TimeUnit) (units : List CivilDate) (date : CivilDate) : Int :=
  max 0 (countUnits u date units - 1)

/-- Ceiling division by 7 (`Math.ceil(diff / 7)` on an integer diff). -/
def ceilDiv7 (a : Int) : Int := (a + 6) / 7

/-- getTaskDurationInUnits: day counts inclusive calendar days
(`Math.ceil(msDiff/dayMs) + 1`, exact at midnights); week returns 1 inside
the start date's getDay-based week, else 7-day spans covered; month counts
inclusive calendar months; everything clamped below by 1
(`Math.max(1, duration)`). -/
def getTaskDurationInUnits (u : TimeUnit) (startDate endDate : CivilDate) : Int :=
  match u with
  | .day => max 1 ((toDays endDate - toDays startDate) + 1)
  | .week =>
      if toDays endDate ≤
          toDays (jsSetDate startDate (jsGetDate startDate + (6 - jsGetDay startDate))) then 1
      else max 1 (ceilDiv7 (toDays endDate - toDays startDate))
  | .month =>
      max 1 ((endDate.year - startDate.year) * 12 + (endDate.month - startDate.month) + 1)

/-- The rendered bar width in pixels:
`durationUnits * unitWidth - 2` (the -2 is the small gap). -/
def taskWidthPx (u : TimeUnit) (startDate endDate : CivilDate) (unitWidth : Int) : Int :=
  getTaskDurationInUnits u startDate endDate * unitWidth - 2

/-- The week index of a timestamp under Monday-to-Sunday weeks (day 4 =
1970-01-05 was a Monday); used only to state the spec's window policy. -/
def mondayWeekIndex (z : Int) : Int := (z - 4) / 7

/-- The duration policy as the spec words it (week granularity phrased with
the Monday-to-Sunday week of the start date). -/
def specDurationInUnits (u : TimeUnit) (startDate endDate : CivilDate) : Int :=
  match u with
  | .day => toDays endDate - toDays startDate + 1
  | .week =>
      if mondayWeekIndex (toDays endDate) = mondayWeekIndex (toDays startDate) then 1
      else ceilDiv7 (toDays endDate - toDays startDate)
  | .month =>
      (endDate.year - startDate.year) * 12 + (endDate.month - startDate.month) + 1

/-! ## Calendar export (src/services/calendarService.ts)

`URLSearchParams` is modelled as the ordered list of appended (key, value)
pairs; percent-encoding of the final `toString()` is external. -/

/-- Two-digit zero padding (`String(n).padStart(2, '0')`, for 0 ≤ n ≤ 99). -/
def pad2 (n : Int) : String :=
  if n < 10 then "0" ++ toString n else toString n

/-- formatDateForGoogleCalendar: `YYYYMMDD` from getFullYear / getMonth+1 /
getDate. -/
def formatDateForGoogleCalendar (d : CivilDate) : String :=
  toString d.year ++ pad2 (jsGetMonth d + 1) ++ pad2 (jsGetDate d)

/-- formatDateTimeForGoogleCalendar: `YYYYMMDDTHHMMSS` with the fixed times
09:00:00 (start) / 18:00:00 (end). -/
def formatDateTimeForGoogleCalendar (d : CivilDate) (isEndDate : Bool) : String :=
  formatDateForGoogleCalendar d ++ "T" ++ (if isEndDate then "18" else "09") ++ "0000"

/-- The event parameters handed to createGoogleCalendarUrl. -/
structure GoogleCalendarEventParams where
  title : String
  description : Option String
  startDate : CivilDate
  endDate : CivilDate

/-- createGoogleCalendarUrl, at the URLSearchParams level: action and title;
the description when truthy; for a same-calendar-day range
(`toDateString()` equality) a timed `start/end` pair, otherwise a date-only
pair whose end is the end date shifted by one day
(exclusive-end convention); and the fixed `ctz` timezone. -/
def createGoogleCalendarUrlParams (p : GoogleCalendarEventParams) : List (String × String) :=
  [("action", "TEMPLATE"), ("text", p.title)] ++
  (match p.description with
   | some descr => if descr = "" then [] else [("details", descr)]
   | none => []) ++
  (if p.startDate = p.endDate then
    [("dates", formatDateTimeForGoogleCalendar p.startDate false ++ "/" ++
      formatDateTimeForGoogleCalendar p.endDate true)]
   else
    [("dates", formatDateForGoogleCalendar p.startDate ++ "/" ++
      formatDateForGoogleCalendar (jsAddDays p.endDate 1))]) ++
  [("ctz", "Asia/Tokyo")]

/-- The `YYYY-MM-DD` string form of a date (as stored in the task record). -/
def isoDateString (d : CivilDate) : String :=
  toString d.year ++ "-" ++ pad2 d.month ++ "-" ++ pad2 d.day

/-- generateTaskDescription (never empty: it always appends the field lines). -/
def generateTaskDescription (t : Task) : String :=
  (match t.description with
   | some descr => if descr = "" then "" else "説明: " ++ descr ++ "\n\n"
   | none => "") ++
  "優先度: " ++ priorityText t.priority ++ "\n" ++
  "ステータス: " ++ statusText t.status ++ "\n" ++
  "開始日: " ++ isoDateString t.startDate ++ "\n" ++
  "終了日: " ++ isoDateString t.endDate ++ "\n" ++
  (if t.dependencies.isEmpty then "" else
    "依存関係: " ++ String.intercalate ", " t.dependencies ++ "\n") ++
  "\n📋 AI搭載TODOアプリから生成されました"

/-- getGoogleCalendarUrlForTask / exportTaskToGoogleCalendar: the URL
parameters generated for one task. -/
def exportTaskParams (t : Task) : List (String × String) :=
  createGoogleCalendarUrlParams
    { title := "📋 " ++ t.name, description := some (generateTaskDescription t),
      startDate := t.startDate, endDate := t.endDate }

/-! ## AI request validation and sanitization (src/services/geminiService.ts)

updateTasksViaAi, up to the network call: the key check, the emptiness
checks, validateRequest over `JSON.stringify({currentYaml, userInstruction})`
and the two sanitizations whose results are interpolated into the outgoing
prompt.  The regex `\s` is modelled by the ASCII whitespace characters (the
Unicode spaces JS additionally accepts only widen the matched set). -/

/-- JS regex whitespace, ASCII part. -/
def jsWhitespace (c : Char) : Bool :=
  c == ' ' || c == '\t' || c == '\n' || c == '\r' || c == '\x0b' || c == '\x0c'

/-- JS regex word character: `[A-Za-z0-9_]`. -/
def isWordChar (c : Char) : Bool :=
  ('a' ≤ c && c ≤ 'z') || ('A' ≤ c && c ≤ 'Z') || ('0' ≤ c && c ≤ '9') || c == '_'

/-- The regex `eval\s*\(` anchored at the head of the character list. -/
def startsEvalCall : List Char → Bool
  | 'e' :: 'v' :: 'a' :: 'l' :: rest =>
      match rest.dropWhile jsWhitespace with
      | '(' :: _ => true
      | _ => false
  | _ => false

/-- The regex `function\s*\(` anchored at the head. -/
def startsFunctionCall : List Char → Bool
  | 'f' :: 'u' :: 'n' :: 'c' :: 't' :: 'i' :: 'o' :: 'n' :: rest =>
      match rest.dropWhile jsWhitespace with
      | '(' :: _ => true
      | _ => false
  | _ => false

/-- The literal `javascript:` anchored at the head. -/
def startsJavascriptScheme : List Char → Bool
  | 'j' :: 'a' :: 'v' :: 'a' :: 's' :: 'c' :: 'r' :: 'i' :: 'p' :: 't' :: ':' :: _ => true
  | _ => false

/-- The regex `<script` (case-insensitive) anchored at the head. -/
def startsScriptTag (l : List Char) : Bool :=
  (l.take 7).map Char.toLower == ("<script".data)

/-- The regex `on\w+\s*=` (case-insensitive) anchored at the head; since `=`
is neither a word nor a whitespace character, greedy matching is exact. -/
def startsOnAttr : List Char → Bool
  | c1 :: c2 :: rest =>
      c1.toLower == 'o' && c2.toLower == 'n' &&
      (match rest with
       | c3 :: _ =>
           isWordChar c3 &&
           (match (rest.dropWhile isWordChar).dropWhile jsWhitespace with
            | '=' :: _ => true
            | _ => false)
       | [] => false)
  | _ => false

/-- An unanchored regex search: some suffix matches. -/
def matchesSomewhere (p : List Char → Bool) (s : String) : Bool :=
  s.data.tails.any p

/-- validateRequest: `true` when none of the malicious patterns occurs in the
JSON-serialized input. -/
def validateRequest (inputStr : String) : Bool :=
  !(matchesSomewhere startsEvalCall inputStr ||
    matchesSomewhere startsFunctionCall inputStr ||
    matchesSomewhere startsJavascriptScheme inputStr ||
    matchesSomewhere startsScriptTag inputStr ||
    matchesSomewhere startsOnAttr inputStr)

/-- One hexadecimal digit (lower case), for JSON control-character escapes. -/
def hexDigit (n : Nat) : Char :=
  if n < 10 then Char.ofNat ('0'.toNat + n) else Char.ofNat ('a'.toNat + (n - 10))

/-- JSON.stringify escaping of one character. -/
def jsonEscapeChar (c : Char) : String :=
  if c = '"' then "\\\""
  else if c = '\\' then "\\\\"
  else if c = '\n' then "\\n"
  else if c = '\r' then "\\r"
  else if c = '\t' then "\\t"
  else if c = '\x08' then "\\b"
  else if c = '\x0c' then "\\f"
  else if c.toNat < 32 then
    "\\u00" ++ String.singleton (hexDigit (c.toNat / 16)) ++ String.singleton (hexDigit (c.toNat % 16))
  else String.singleton c

/-- JSON.stringify escaping of a string body. -/
def jsonEscape (s : String) : String :=
  String.join (s.data.map jsonEscapeChar)

/-- `JSON.stringify({ currentYaml, userInstruction })`. -/
def jsonStringifyPair (currentYaml userInstruction : String) : String :=
  "\x7b\"currentYaml\":\"" ++ jsonEscape currentYaml ++
    "\",\"userInstruction\":\"" ++ jsonEscape userInstruction ++ "\"\x7d"

/-- `.replace(/[<>]/g, '')`. -/
def stripAngles (s : String) : String :=
  String.mk (s.data.filter (fun c => c != '<' && c != '>'))

/-- `.substring(0, n)`. -/
def jsSubstring (s : String) (n : Nat) : String :=
  String.mk (s.data.take n)

/-- The sanitized instruction interpolated into the prompt:
angle brackets stripped, then truncated to 500 characters. -/
def sanitizedInstruction (userInstruction : String) : String :=
  jsSubstring (stripAngles userInstruction) 500

/-- The sanitized YAML interpolated into the prompt: truncated to 10000
characters (no angle-bracket stripping). -/
def sanitizedYaml (currentYaml : String) : String :=
  jsSubstring currentYaml 10000

/-- The sanitized YAML as the spec's sanitization sentence describes it:
angle brackets stripped, then truncated.  Stated only to compare with
`sanitizedYaml`. -/
def specSanitizedYaml (currentYaml : String) : String :=
  jsSubstring (stripAngles currentYaml) 10000

/-- updateTasksViaAi up to (and excluding) the network call: every `.error`
is a client-side rejection raised before any request is sent; `.ok` carries
the `(sanitizedInstruction, sanitizedYaml)` pair interpolated into the
outgoing prompt. -/
def updateTasksViaAiPrepare (hasApiKey : Bool) (currentYaml userInstruction : String) :
    Except String (String × String) :=
  if !hasApiKey then .error "API Key not configured. Cannot update tasks via AI."
  else if currentYaml == "" then .error "Invalid YAML input."
  else if userInstruction == "" then .error "Invalid instruction input."
  else if !validateRequest (jsonStringifyPair currentYaml userInstruction) then
    .error "Invalid input detected. Cannot process request."
  else .ok (sanitizedInstruction userInstruction, sanitizedYaml currentYaml)

/-! ## Calendar lemmas -/

theorem daysInMonth_pos (y m : Int) : 1 ≤ daysInMonth y m := by
  unfold daysInMonth; split_ifs <;> omega

theorem daysInMonth_le_31 (y m : Int) : daysInMonth y m ≤ 31 := by
  unfold daysInMonth; split_ifs <;> omega

theorem le_daysInMonth_28 (y m : Int) : 28 ≤ daysInMonth y m := by
  unfold daysInMonth; split_ifs <;> omega

theorem epochDate_valid : epochDate.Valid := by decide

theorem daysBeforeMonth_succ (y m : Int) (h1 : 1 ≤ m) (h2 : m ≤ 11) :
    daysBeforeMonth y (m + 1) = daysBeforeMonth y m + daysInMonth y m := by
  interval_cases m <;>
    simp +decide only [daysBeforeMonth, cumDaysBeforeMonth, daysInMonth, reduceIte] <;>
    (try split_ifs) <;> omega

theorem daysBeforeYear_succ (y : Int) :
    daysBeforeYear (y + 1) = daysBeforeYear y + 365 + (if isLeap y then 1 else 0) := by
  unfold daysBeforeYear isLeap
  split_ifs <;> omega

theorem daysBeforeMonth_first (y : Int) : daysBeforeMonth y 1 = 0 := by
  simp +decide only [daysBeforeMonth, cumDaysBeforeMonth, reduceIte]
  split_ifs <;> omega

theorem daysBeforeMonth_last (y : Int) :
    daysBeforeMonth y 12 + daysInMonth y 12 = 365 + (if isLeap y then 1 else 0) := by
  simp +decide only [daysBeforeMonth, cumDaysBeforeMonth, daysInMonth, reduceIte]
  split_ifs <;> omega

theorem toDays_succDay {d : CivilDate} (h : d.Valid) :
    toDays (succDay d) = toDays d + 1 := by
  obtain ⟨hm1, hm2, hd1, hd2⟩ := h
  unfold succDay
  split_ifs with h1 h2
  · simp [toDays]; omega
  · simp only [toDays]
    rw [daysBeforeMonth_succ d.year d.month hm1 (by omega)]
    omega
  · have hm : d.month = 12 := by omega
    have hfirst := daysBeforeMonth_first (d.year + 1)
    have hlast := daysBeforeMonth_last d.year
    have hy := daysBeforeYear_succ d.year
    rw [hm] at h1 hd2
    simp only [toDays, hm]
    omega

theorem succDay_valid {d : CivilDate} (h : d.Valid) : (succDay d).Valid := by
  obtain ⟨hm1, hm2, hd1, hd2⟩ := h
  unfold succDay CivilDate.Valid
  split_ifs with h1 h2 <;> dsimp only
  · exact ⟨hm1, hm2, by omega, by omega⟩
  · have := daysInMonth_pos d.year (d.month + 1)
    exact ⟨by omega, by omega, by omega, by omega⟩
  · have := daysInMonth_pos (d.year + 1) 1
    exact ⟨by omega, by omega, by omega, by omega⟩

theorem toDays_predDay {d : CivilDate} (h : d.Valid) :
    toDays (predDay d) = toDays d - 1 := by
  obtain ⟨hm1, hm2, hd1, hd2⟩ := h
  unfold predDay
  split_ifs with h1 h2
  · simp [toDays]; omega
  · simp only [toDays]
    rw [show d.month = (d.month - 1) + 1 by omega, daysBeforeMonth_succ d.year (d.month - 1) (by omega) (by omega)]
    simp only [show d.month - 1 + 1 = d.month by omega]
    omega
  · have hm : d.month = 1 := by omega
    have hd : d.day = 1 := by omega
    have h31 : daysInMonth (d.year - 1) 12 = 31 := by unfold daysInMonth; split_ifs <;> omega
    have hlast := daysBeforeMonth_last (d.year - 1)
    have hy : daysBeforeYear (d.year - 1 + 1) =
        daysBeforeYear (d.year - 1) + 365 + (if isLeap (d.year - 1) then 1 else 0) :=
      daysBeforeYear_succ (d.year - 1)
    have hy1 : d.year - 1 + 1 = d.year := by omega
    rw [hy1] at hy
    simp only [toDays, hm, hd, daysBeforeMonth_first]
    omega

theorem predDay_valid {d : CivilDate} (h : d.Valid) : (predDay d).Valid := by
  obtain ⟨hm1, hm2, hd1, hd2⟩ := h
  unfold predDay CivilDate.Valid
  split_ifs with h1 h2 <;> dsimp only
  · exact ⟨hm1, hm2, by omega, by omega⟩
  · have := daysInMonth_pos d.year (d.month - 1)
    exact ⟨by omega, by omega, by omega, by omega⟩
  · have : daysInMonth (d.year - 1) 12 = 31 := by unfold daysInMonth; split_ifs <;> omega
    exact ⟨by omega, by omega, by omega, by omega⟩

theorem fromDays_nonneg_spec (n : Nat) :
    (succDay^[n] epochDate).Valid ∧ toDays (succDay^[n] epochDate) = n := by
  induction n with
  | zero => exact ⟨epochDate_valid, by decide⟩
  | succ k ih =>
    rw [Function.iterate_succ_apply']
    refine ⟨succDay_valid ih.1, ?_⟩
    rw [toDays_succDay ih.1, ih.2]
    omega

theorem fromDays_neg_spec (n : Nat) :
    (predDay^[n] epochDate).Valid ∧ toDays (predDay^[n] epochDate) = -(n : Int) := by
  induction n with
  | zero => exact ⟨epochDate_valid, by decide⟩
  | succ k ih =>
    rw [Function.iterate_succ_apply']
    refine ⟨predDay_valid ih.1, ?_⟩
    rw [toDays_predDay ih.1, ih.2]
    omega

theorem fromDays_valid (z : Int) : (fromDays z).Valid := by
  unfold fromDays
  split_ifs
  · exact (fromDays_nonneg_spec _).1
  · exact (fromDays_neg_spec _).1

theorem toDays_fromDays (z : Int) : toDays (fromDays z) = z := by
  unfold fromDays
  split_ifs with h
  · rw [(fromDays_nonneg_spec _).2]; omega
  · rw [(fromDays_neg_spec _).2]; omega

theorem daysBeforeYear_mono {y y' : Int} (h : y ≤ y') :
    daysBeforeYear y ≤ daysBeforeYear y' := by
  unfold daysBeforeYear
  omega

set_option maxHeartbeats 1000000 in
theorem daysBeforeMonth_nonneg (y m : Int) : 0 ≤ daysBeforeMonth y m := by
  unfold daysBeforeMonth cumDaysBeforeMonth
  split_ifs <;> omega

theorem daysBeforeMonth_add_le (y k : Int) (h1 : 1 ≤ k) (h2 : k ≤ 12) :
    daysBeforeMonth y k + daysInMonth y k ≤ 365 + (if isLeap y then 1 else 0) := by
  interval_cases k <;>
    simp +decide only [daysBeforeMonth, cumDaysBeforeMonth, daysInMonth, reduceIte] <;>
    (try split_ifs) <;> omega

/-- Within its year, a valid date's day-of-year offset lies in `[0, 365)`
(or `[0, 366)` in a leap year). -/
theorem dayOfYear_bounds {d : CivilDate} (h : d.Valid) :
    0 ≤ daysBeforeMonth d.year d.month + (d.day - 1) ∧
    daysBeforeMonth d.year d.month + (d.day - 1) < 365 + (if isLeap d.year then 1 else 0) := by
  obtain ⟨hm1, hm2, hd1, hd2⟩ := h
  have hadd := daysBeforeMonth_add_le d.year d.month hm1 hm2
  have hpos := daysBeforeMonth_nonneg d.year d.month
  split_ifs at hadd ⊢ <;> omega

/-- Across years, `toDays` respects the year order strictly for valid dates. -/
theorem toDays_lt_of_year_lt {d d' : CivilDate} (h : d.Valid) (h' : d'.Valid)
    (hy : d.year < d'.year) : toDays d < toDays d' := by
  have hb := dayOfYear_bounds h
  have hb' := dayOfYear_bounds h'
  have hstep : daysBeforeYear (d.year + 1) =
      daysBeforeYear d.year + 365 + (if isLeap d.year then 1 else 0) := daysBeforeYear_succ d.year
  have hmono : daysBeforeYear (d.year + 1) ≤ daysBeforeYear d'.year :=
    daysBeforeYear_mono (by omega)
  unfold toDays
  split_ifs at hb hb' hstep <;> omega

/-- Within a year, the month is determined by the day-of-year offset. -/
theorem daysBeforeMonth_disjoint (y : Int) {m m' : Int} (h1 : 1 ≤ m) (h2 : m ≤ 12)
    (h1' : 1 ≤ m') (h2' : m' ≤ 12) (hlt : m < m') :
    daysBeforeMonth y m + daysInMonth y m ≤ daysBeforeMonth y m' := by
  interval_cases m <;> interval_cases m' <;>
    simp +decide only [daysBeforeMonth, cumDaysBeforeMonth, daysInMonth, reduceIte] <;>
    (try split_ifs) <;> omega

/-- `toDays` is injective on valid dates. -/
theorem toDays_inj {d d' : CivilDate} (h : d.Valid) (h' : d'.Valid)
    (heq : toDays d = toDays d') : d = d' := by
  have hy : d.year = d'.year := by
    rcases lt_trichotomy d.year d'.year with hlt | hEq | hgt
    · exact absurd (toDays_lt_of_year_lt h h' hlt) (by omega)
    · exact hEq
    · exact absurd (toDays_lt_of_year_lt h' h hgt) (by omega)
  obtain ⟨hm1, hm2, hd1, hd2⟩ := h
  obtain ⟨hm1', hm2', hd1', hd2'⟩ := h'
  have hm : d.month = d'.month := by
    rcases lt_trichotomy d.month d'.month with hlt | hEq | hgt
    · have := daysBeforeMonth_disjoint d.year hm1 hm2 hm1' hm2' hlt
      rw [hy] at this hd2
      unfold toDays at heq
      rw [hy] at heq
      omega
    · exact hEq
    · have := daysBeforeMonth_disjoint d.year hm1' hm2' hm1 hm2 hgt
      rw [hy] at this hd2
      unfold toDays at heq
      rw [hy] at heq
      omega
  have hd : d.day = d'.day := by
    unfold toDays at heq
    rw [hy, hm] at heq
    omega
  cases d; cases d'
  simp_all

/-- Round trip: the civil date of a valid date's timestamp is the date itself. -/
theorem fromDays_toDays {d : CivilDate} (h : d.Valid) : fromDays (toDays d) = d :=
  toDays_inj (fromDays_valid _) h (toDays_fromDays _)

theorem toDays_day_one (y m a : Int) :
    toDays ⟨y, m, a⟩ = toDays ⟨y, m, 1⟩ + (a - 1) := by
  unfold toDays
  dsimp only
  omega

theorem valid_mk {y m a : Int} (h1 : 1 ≤ m) (h2 : m ≤ 12) (h3 : 1 ≤ a)
    (h4 : a ≤ daysInMonth y m) : CivilDate.Valid ⟨y, m, a⟩ :=
  ⟨h1, h2, h3, h4⟩

/-- In-range month indices are left unchanged by the `new Date` normalization. -/
theorem jsMkDate_eq (y mIdx n : Int) (h0 : 0 ≤ mIdx) (h11 : mIdx ≤ 11) :
    jsMkDate y mIdx n = fromDays (toDays ⟨y, mIdx + 1, 1⟩ + (n - 1)) := by
  unfold jsMkDate
  have hq : mIdx / 12 = 0 := by omega
  have hr : mIdx % 12 = mIdx := by omega
  rw [hq, hr]
  norm_num

/-- `setDate(getDate() + n)` is a plain timestamp shift by `n` days. -/
theorem jsAddDays_eq {d : CivilDate} (h : d.Valid) (n : Int) :
    jsAddDays d n = fromDays (toDays d + n) := by
  obtain ⟨hm1, hm2, hd1, hd2⟩ := h
  unfold jsAddDays jsSetDate jsGetDate
  rw [jsMkDate_eq d.year (d.month - 1) (d.day + n) (by omega) (by omega)]
  have harg : toDays ⟨d.year, d.month - 1 + 1, 1⟩ + (d.day + n - 1) = toDays d + n := by
    have h1 : d.month - 1 + 1 = d.month := by omega
    rw [h1]
    have h2 : toDays ⟨d.year, d.month, d.day⟩ = toDays ⟨d.year, d.month, 1⟩ + (d.day - 1) :=
      toDays_day_one d.year d.month d.day
    have h3 : (⟨d.year, d.month, d.day⟩ : CivilDate) = d := rfl
    rw [h3] at h2
    omega
  rw [harg]

theorem toDays_jsAddDays {d : CivilDate} (h : d.Valid) (n : Int) :
    toDays (jsAddDays d n) = toDays d + n := by
  rw [jsAddDays_eq h n, toDays_fromDays]

theorem jsAddDays_valid {d : CivilDate} (h : d.Valid) (n : Int) :
    (jsAddDays d n).Valid := by
  rw [jsAddDays_eq h n]
  exact fromDays_valid _

/-- Shifting by `n` days and then by `-n` days restores the original date. -/
theorem jsAddDays_roundTrip {d : CivilDate} (h : d.Valid) (n : Int) :
    jsAddDays (jsAddDays d n) (-n) = d := by
  rw [jsAddDays_eq (jsAddDays_valid h n) (-n), toDays_jsAddDays h n]
  have : toDays d + n + -n = toDays d := by omega
  rw [this, fromDays_toDays h]

/-- For a day of month that exists in every month (`day ≤ 28`),
`setMonth(getMonth() + n)` lands on the same day of the target month,
with the month index shifted by `n`. -/
theorem jsAddMonths_eq {d : CivilDate} (h : d.Valid) (hday : d.day ≤ 28) (n : Int) :
    jsAddMonths d n =
      ⟨d.year + (d.month - 1 + n) / 12, (d.month - 1 + n) % 12 + 1, d.day⟩ := by
  obtain ⟨hm1, hm2, hd1, hd2⟩ := h
  unfold jsAddMonths jsSetMonth jsGetMonth jsMkDate
  have harg : toDays ⟨d.year + (d.month - 1 + n) / 12, (d.month - 1 + n) % 12 + 1, 1⟩ + (d.day - 1) =
      toDays ⟨d.year + (d.month - 1 + n) / 12, (d.month - 1 + n) % 12 + 1, d.day⟩ := by
    rw [toDays_day_one (d.year + (d.month - 1 + n) / 12) ((d.month - 1 + n) % 12 + 1) d.day]
  rw [harg]
  apply fromDays_toDays
  apply valid_mk (by omega) (by omega) (by omega)
  have := le_daysInMonth_28 (d.year + (d.month - 1 + n) / 12) ((d.month - 1 + n) % 12 + 1)
  omega

/-! ## Claim C1: delete removes the task and scrubs dependencies -/

/-- C1: deleting a task id present in the collection leaves no task with that
id and no remaining dependency on it; in particular deleting A from the
two-task scenario leaves exactly B with empty dependencies. -/
theorem deleteTask_removes_id_and_dependencies (tasks : List Task) (t : String)
    (_hmem : ∃ task ∈ tasks, task.id = t) :
    (∀ task ∈ handleDeleteTask tasks t, task.id ≠ t ∧ t ∉ task.dependencies) ∧
    handleDeleteTask [scenarioTaskA, scenarioTaskB] "A" =
      [{ scenarioTaskB with dependencies := [] }] := by
  clear _hmem
  constructor
  · intro task htask
    unfold handleDeleteTask at htask
    obtain ⟨src, hsrc, heq⟩ := List.mem_map.mp htask
    obtain ⟨hsrcmem, hpred⟩ := List.mem_filter.mp hsrc
    constructor
    · intro hid
      subst heq
      simp only [bne_iff_ne, ne_eq] at hpred
      exact hpred hid
    · intro hdep
      subst heq
      have h2 := (List.mem_filter.mp hdep).2
      simp at h2
  · decide

/-- Witness for C1 at the spec's two-task scenario. -/
theorem deleteTask_removes_id_and_dependencies_witness :
    (∀ task ∈ handleDeleteTask [scenarioTaskA, scenarioTaskB] "A",
        task.id ≠ "A" ∧ "A" ∉ task.dependencies) ∧
    handleDeleteTask [scenarioTaskA, scenarioTaskB] "A" =
      [{ scenarioTaskB with dependencies := [] }] :=
  deleteTask_removes_id_and_dependencies [scenarioTaskA, scenarioTaskB] "A"
    ⟨scenarioTaskA, by decide⟩

/-! ## Claim C3: the AI-driven YAML update is atomic on the task collection -/

/-- C3: when parsing the AI's YAML throws, the task collection is untouched
and an error is surfaced; when it succeeds, the collection becomes exactly
the parsed list (and the error is cleared). -/
theorem aiUpdate_atomic (load : String → Except String YamlValue)
    (st : AppState) (newYaml : String) :
    (∀ e, parseTasksFromYaml load newYaml = .error e →
        (handleYamlUpdateByAi load st newYaml).tasks = st.tasks ∧
        (handleYamlUpdateByAi load st newYaml).error.isSome = true) ∧
    (∀ ts, parseTasksFromYaml load newYaml = .ok ts →
        (handleYamlUpdateByAi load st newYaml).tasks = ts ∧
        (handleYamlUpdateByAi load st newYaml).error = none) := by
  unfold handleYamlUpdateByAi
  constructor
  · intro e he
    rw [he]
    exact ⟨rfl, rfl⟩
  · intro ts hts
    rw [hts]
    exact ⟨rfl, rfl⟩

/-- Witness for C3: a loader that throws leaves the previous (empty) task
collection in place and sets the error. -/
theorem aiUpdate_atomic_witness :
    (handleYamlUpdateByAi (fun _ => .error "boom") ⟨[], "", none⟩ "x").tasks = [] ∧
    (handleYamlUpdateByAi (fun _ => .error "boom") ⟨[], "", none⟩ "x").error.isSome = true :=
  (aiUpdate_atomic (fun _ => .error "boom") ⟨[], "", none⟩ "x").1
    "Invalid YAML format: boom" rfl

/-! ## Claim C10: parseTasksFromYaml on loadable input -/

/-- C10: when the loader succeeds, a non-list document parses to the empty
collection, a list document parses to exactly its sub-list of elements with
truthy id and name (in order), and hence every parsed task has a truthy —
in particular non-null, non-empty — id and name. -/
theorem parseTasks_filters_truthy_id_name (load : String → Except String YamlValue)
    (s : String) (v : YamlValue) (hload : load s = .ok v) :
    ((∀ items, v ≠ .vlist items) → parseTasksFromYaml load s = .ok []) ∧
    (∀ items, v = .vlist items →
        parseTasksFromYaml load s = .ok (items.filter keepTask)) ∧
    (∀ ts, parseTasksFromYaml load s = .ok ts → ∀ x ∈ ts,
        (∃ iv, lookupField "id" x = some iv ∧ truthy iv = true ∧
           iv ≠ .vnull ∧ iv ≠ .vstr "") ∧
        (∃ nv, lookupField "name" x = some nv ∧ truthy nv = true ∧
           nv ≠ .vnull ∧ nv ≠ .vstr "")) := by
  have hparse : parseTasksFromYaml load s = .ok (tasksOfYaml v) := by
    unfold parseTasksFromYaml
    rw [hload]
  refine ⟨?_, ?_, ?_⟩
  · intro hnl
    rw [hparse]
    cases v with
    | vlist items => exact absurd rfl (hnl items)
    | vnull => rfl
    | vbool b => rfl
    | vnum n => rfl
    | vstr sv => rfl
    | vmap es => rfl
  · intro items hv
    subst hv
    rw [hparse]
    rfl
  · intro ts hts x hx
    rw [hparse] at hts
    injection hts with hts
    subst hts
    have hkeep : keepTask x = true := by
      cases v with
      | vlist items => exact (List.mem_filter.mp hx).2
      | vnull => exact absurd hx (by simp [tasksOfYaml])
      | vbool b => exact absurd hx (by simp [tasksOfYaml])
      | vnum n => exact absurd hx (by simp [tasksOfYaml])
      | vstr sv => exact absurd hx (by simp [tasksOfYaml])
      | vmap es => exact absurd hx (by simp [tasksOfYaml])
    unfold keepTask at hkeep
    simp only [Bool.and_eq_true] at hkeep
    obtain ⟨⟨-, hid⟩, hname⟩ := hkeep
    constructor
    · unfold truthyField at hid
      cases hiv : lookupField "id" x with
      | none => rw [hiv] at hid; exact absurd hid (by simp)
      | some iv =>
          rw [hiv] at hid
          refine ⟨iv, rfl, hid, ?_, ?_⟩
          · intro hnull; subst hnull; exact absurd hid (by simp [truthy])
          · intro hempty; subst hempty; exact absurd hid (by simp [truthy])
    · unfold truthyField at hname
      cases hnv : lookupField "name" x with
      | none => rw [hnv] at hname; exact absurd hname (by simp)
      | some nv =>
          rw [hnv] at hname
          refine ⟨nv, rfl, hname, ?_, ?_⟩
          · intro hnull; subst hnull; exact absurd hname (by simp [truthy])
          · intro hempty; subst hempty; exact absurd hname (by simp [truthy])

/-- Witness for C10: a list document with one well-formed task object, one
object with an empty name, and one scalar keeps only the first element. -/
theorem parseTasks_filters_truthy_id_name_witness :
    parseTasksFromYaml
      (fun _ => .ok (.vlist
        [.vmap [("id", .vstr "t1"), ("name", .vstr "task one")],
         .vmap [("id", .vstr "t2"), ("name", .vstr "")],
         .vstr "stray"]))
      "doc" =
      .ok [.vmap [("id", .vstr "t1"), ("name", .vstr "task one")]] :=
  (parseTasks_filters_truthy_id_name
      (fun _ => .ok (.vlist
        [.vmap [("id", .vstr "t1"), ("name", .vstr "task one")],
         .vmap [("id", .vstr "t2"), ("name", .vstr "")],
         .vstr "stray"]))
      "doc" _ rfl).2.1 _ rfl

/-- For a day of month ≤ 28, shifting by `n` months and back restores the
original date exactly. -/
theorem jsAddMonths_roundTrip {d : CivilDate} (h : d.Valid) (hday : d.day ≤ 28) (n : Int) :
    jsAddMonths (jsAddMonths d n) (-n) = d := by
  have h1 := jsAddMonths_eq h hday n
  obtain ⟨hm1, hm2, hd1, hd2⟩ := h
  rw [h1]
  have hT : (⟨d.year + (d.month - 1 + n) / 12, (d.month - 1 + n) % 12 + 1, d.day⟩ : CivilDate).Valid := by
    apply valid_mk (by omega) (by omega) (by omega)
    have := le_daysInMonth_28 (d.year + (d.month - 1 + n) / 12) ((d.month - 1 + n) % 12 + 1)
    omega
  rw [jsAddMonths_eq hT (show d.day ≤ 28 from hday) (-n)]
  dsimp only
  cases d
  simp only [CivilDate.mk.injEq] at *
  exact ⟨by omega, by omega, trivial⟩

/-- Round trip of the per-date drag shift, for day and week granularity
unconditionally, for month granularity when the day of month is at most 28. -/
theorem shiftByUnits_roundTrip (u : TimeUnit) (n : Int) {d : CivilDate}
    (hd : d.Valid) (h28 : u = .month → d.day ≤ 28) :
    shiftByUnits u (-n) (shiftByUnits u n d) = d := by
  cases u with
  | day => exact jsAddDays_roundTrip hd n
  | week =>
      show jsAddDays (jsAddDays d (n * 7)) (-n * 7) = d
      have h7 : -n * 7 = -(n * 7) := by ring
      rw [h7]
      exact jsAddDays_roundTrip hd (n * 7)
  | month => exact jsAddMonths_roundTrip hd (h28 rfl) n

/-! ## Claim C2: dragging by +N then -N units restores the dates -/

/-- C2 (amended): for day and week granularity the drag shift of +N units
followed by -N units restores the task's startDate and endDate exactly, for
every integer N; for month granularity the same holds whenever the days of
month involved are at most 28 (setMonth day-of-month overflow breaks the
round trip for days 29–31, see the counterexample). -/
theorem dragShift_roundTrip (u : TimeUnit) (n : Int) (task : Task)
    (hs : task.startDate.Valid) (he : task.endDate.Valid)
    (h28 : u = .month → task.startDate.day ≤ 28 ∧ task.endDate.day ≤ 28) :
    shiftByUnits u (-n) (shiftByUnits u n task.startDate) = task.startDate ∧
    shiftByUnits u (-n) (shiftByUnits u n task.endDate) = task.endDate :=
  ⟨shiftByUnits_roundTrip u n hs (fun hm => (h28 hm).1),
   shiftByUnits_roundTrip u n he (fun hm => (h28 hm).2)⟩

/-- Witness for C2 at month granularity on the scenario task. -/
theorem dragShift_roundTrip_witness :
    shiftByUnits .month (-3) (shiftByUnits .month 3 scenarioTaskA.startDate) =
      scenarioTaskA.startDate ∧
    shiftByUnits .month (-3) (shiftByUnits .month 3 scenarioTaskA.endDate) =
      scenarioTaskA.endDate :=
  dragShift_roundTrip .month 3 scenarioTaskA (by decide) (by decide)
    (fun _ => by decide)

/-- Strict monotonicity of `toDays` in the month, within a year. -/
theorem toDays_lt_of_month_lt {d d' : CivilDate} (h : d.Valid) (h' : d'.Valid)
    (hy : d.year = d'.year) (hm : d.month < d'.month) : toDays d < toDays d' := by
  obtain ⟨hm1, hm2, hd1, hd2⟩ := h
  obtain ⟨hm1', hm2', hd1', hd2'⟩ := h'
  have hdisj := daysBeforeMonth_disjoint d.year hm1 hm2 hm1' hm2' hm
  unfold toDays
  rw [hy] at hdisj hd2 ⊢
  omega

/-- The month index (year*12 + month) respects the timestamp order. -/
theorem monthIndex_mono {d d' : CivilDate} (h : d.Valid) (h' : d'.Valid)
    (hle : toDays d ≤ toDays d') :
    d.year * 12 + d.month ≤ d'.year * 12 + d'.month := by
  by_contra hgt
  push_neg at hgt
  have hm1 := h.1
  have hm2 := h.2.1
  have hm1' := h'.1
  have hm2' := h'.2.1
  rcases lt_trichotomy d'.year d.year with hlt | hEq | hgt2
  · exact absurd (toDays_lt_of_year_lt h' h hlt) (by omega)
  · have hmlt : d'.month < d.month := by omega
    exact absurd (toDays_lt_of_month_lt h' h hEq hmlt) (by omega)
  · omega

/-! ## Claim C5: duration-in-units policy per granularity -/

/-- C5: for startDate ≤ endDate, the bar duration is the inclusive calendar
day count at day granularity; at week granularity 1 inside the start's week
and otherwise the number of 7-day spans covered (extensionally identical to
the Monday-to-Sunday phrasing of the spec, which matches the week axis
units); and at month granularity the inclusive calendar month count. -/
theorem taskDuration_policy (u : TimeUnit) (s e : CivilDate)
    (hs : s.Valid) (he : e.Valid) (hle : toDays s ≤ toDays e) :
    getTaskDurationInUnits u s e = specDurationInUnits u s e := by
  cases u with
  | day =>
      simp only [getTaskDurationInUnits, specDurationInUnits]
      omega
  | week =>
      simp only [getTaskDurationInUnits, specDurationInUnits]
      have hw : toDays (jsSetDate s (jsGetDate s + (6 - jsGetDay s))) =
          toDays s + (6 - jsGetDay s) := toDays_jsAddDays hs (6 - jsGetDay s)
      rw [hw]
      unfold mondayWeekIndex ceilDiv7 jsGetDay
      split_ifs <;> omega
  | month =>
      have hmi := monthIndex_mono hs he hle
      simp only [getTaskDurationInUnits, specDurationInUnits]
      omega

/-- Witness for C5 at week granularity, across a week boundary. -/
theorem taskDuration_policy_witness :
    getTaskDurationInUnits .week ⟨1970, 1, 5⟩ ⟨1970, 1, 14⟩ =
      specDurationInUnits .week ⟨1970, 1, 5⟩ ⟨1970, 1, 14⟩ :=
  taskDuration_policy .week ⟨1970, 1, 5⟩ ⟨1970, 1, 14⟩ (by decide) (by decide)
    (by decide)

/-! ## Claim C6: end-before-start tasks are not rejected -/

/-- C6 (amended): a task whose endDate precedes its startDate is still laid
out (the duration function is total); its duration is clamped to one unit,
so the rendered bar width is `unitWidth - 2` — a positive width for the
granularity base widths, not a zero/negative one. -/
theorem malformedDates_clamped (u : TimeUnit) (s e : CivilDate)
    (hs : s.Valid) (he : e.Valid) (hlt : toDays e < toDays s) (unitWidth : Int) :
    getTaskDurationInUnits u s e = 1 ∧
    taskWidthPx u s e unitWidth = unitWidth - 2 := by
  have hdur : getTaskDurationInUnits u s e = 1 := by
    cases u with
    | day =>
        simp only [getTaskDurationInUnits]
        omega
    | week =>
        simp only [getTaskDurationInUnits]
        have hw : toDays (jsSetDate s (jsGetDate s + (6 - jsGetDay s))) =
            toDays s + (6 - jsGetDay s) := toDays_jsAddDays hs (6 - jsGetDay s)
        rw [hw]
        unfold ceilDiv7 jsGetDay
        split_ifs <;> omega
    | month =>
        have hmi := monthIndex_mono he hs (le_of_lt hlt)
        simp only [getTaskDurationInUnits]
        omega
  refine ⟨hdur, ?_⟩
  unfold taskWidthPx
  rw [hdur]
  ring

/-- Witness for C6 (amended) at day granularity and the base day width. -/
theorem malformedDates_clamped_witness :
    getTaskDurationInUnits .day ⟨1970, 1, 2⟩ ⟨1970, 1, 1⟩ = 1 ∧
    taskWidthPx .day ⟨1970, 1, 2⟩ ⟨1970, 1, 1⟩ 75 = 75 - 2 :=
  malformedDates_clamped .day ⟨1970, 1, 2⟩ ⟨1970, 1, 1⟩ (by decide) (by decide)
    (by decide) 75

/-- Counterexample for C6 as stated: with end (1970-01-01) strictly before
start (1970-01-02), the bar width at day granularity and base unit width 75
is 73 pixels — positive, not zero or negative. -/
theorem malformedDates_counterexample :
    toDays (⟨1970, 1, 1⟩ : CivilDate) < toDays (⟨1970, 1, 2⟩ : CivilDate) ∧
    taskWidthPx .day ⟨1970, 1, 2⟩ ⟨1970, 1, 1⟩ 75 = 73 ∧
    ¬(taskWidthPx .day ⟨1970, 1, 2⟩ ⟨1970, 1, 1⟩ 75 ≤ 0) := by
  refine ⟨by decide, by decide, by decide⟩

/-- The comparator relation is transitive. -/
theorem sortLe_trans (k : SortKey) (o : SortOrder) :
    ∀ a b c : Task, sortLe k o a b → sortLe k o b c → sortLe k o a c := by
  intro a b c hab hbc
  cases o <;> simp only [sortLe, decide_eq_true_eq] at * <;> omega

/-- The comparator relation is total. -/
theorem sortLe_total (k : SortKey) (o : SortOrder) :
    ∀ a b : Task, sortLe k o a b || sortLe k o b a := by
  intro a b
  cases o <;> simp only [sortLe, Bool.or_eq_true, decide_eq_true_eq] <;> omega

/-! ## Claim C7: the list-view sort is stable and reversible -/

/-- C7: tasks tied under the sort key keep their original relative order in
both directions (stability), and on a list with no two distinct tasks tied
under the key, descending order is exactly the reverse of ascending order. -/
theorem listSort_stable_and_reversible (k : SortKey) (tasks : List Task) :
    (∀ a b, sortKeyValue k a = sortKeyValue k b → [a, b].Sublist tasks →
        ∀ o, [a, b].Sublist (sortedTasks k o tasks)) ∧
    ((∀ a ∈ tasks, ∀ b ∈ tasks, sortKeyValue k a = sortKeyValue k b → a = b) →
        sortedTasks k .desc tasks = (sortedTasks k .asc tasks).reverse) := by
  constructor
  · intro a b hkey hsub o
    apply List.pair_sublist_mergeSort (sortLe_trans k o) (sortLe_total k o)
    · cases o <;> simp [sortLe, hkey]
    · exact hsub
  · intro hnd
    have hperm : List.Perm (sortedTasks k .desc tasks)
        ((sortedTasks k .asc tasks).reverse) := by
      unfold sortedTasks
      exact (List.mergeSort_perm tasks _).trans
        (((tasks.mergeSort (sortLe k .asc)).reverse_perm.trans
          (List.mergeSort_perm tasks _)).symm)
    have hsorted1 : (sortedTasks k .desc tasks).Pairwise
        (fun a b => sortKeyValue k b ≤ sortKeyValue k a) := by
      have hp := List.sorted_mergeSort (sortLe_trans k .desc) (sortLe_total k .desc) tasks
      exact hp.imp (fun hab => by simpa [sortLe, decide_eq_true_eq] using hab)
    have hsorted2 : ((sortedTasks k .asc tasks).reverse).Pairwise
        (fun a b => sortKeyValue k b ≤ sortKeyValue k a) := by
      rw [List.pairwise_reverse]
      have hp := List.sorted_mergeSort (sortLe_trans k .asc) (sortLe_total k .asc) tasks
      exact hp.imp (fun hab => by simpa [sortLe, decide_eq_true_eq] using hab)
    exact List.Perm.eq_of_sorted
      (fun a b ha hb hab hba =>
        hnd a (List.mem_mergeSort.mp ha) b
          (List.mem_mergeSort.mp (List.mem_reverse.mp hb))
          (le_antisymm hba hab))
      hsorted1 hsorted2 hperm

unseal List.merge List.mergeSort in
/-- Witness for C7: a tied pair keeps its order under both directions, and a
tie-free two-task list sorts to exactly reversed orders. -/
theorem listSort_stable_and_reversible_witness :
    ([scenarioTaskA, { scenarioTaskA with id := "A2" }].Sublist
        (sortedTasks .priority .desc [scenarioTaskA, { scenarioTaskA with id := "A2" }])) ∧
    sortedTasks .startDate .desc [scenarioTaskA, scenarioTaskB] =
      (sortedTasks .startDate .asc [scenarioTaskA, scenarioTaskB]).reverse :=
  ⟨(listSort_stable_and_reversible .priority
        [scenarioTaskA, { scenarioTaskA with id := "A2" }]).1
      scenarioTaskA { scenarioTaskA with id := "A2" } rfl (List.Sublist.refl _) .desc,
   (listSort_stable_and_reversible .startDate [scenarioTaskA, scenarioTaskB]).2
      (by decide)⟩

/-- Shifting a valid date by one day is the calendar successor. -/
theorem jsAddDays_one {d : CivilDate} (h : d.Valid) : jsAddDays d 1 = succDay d := by
  rw [jsAddDays_eq h 1, ← toDays_succDay h, fromDays_toDays (succDay_valid h)]

/-! ## Claim C8: calendar-export URL date policy -/

/-- C8: a same-calendar-day task yields a timed dates range (both endpoints
of `T`-separated date-time form at the fixed 09:00/18:00 times); a
multi-day task yields a date-only range whose end is the endDate advanced by
exactly one calendar day; and every export carries the fixed Asia/Tokyo
timezone parameter. -/
theorem calendarUrl_dates_policy (t : Task) (he : t.endDate.Valid) :
    (t.startDate = t.endDate →
        ("dates", (formatDateForGoogleCalendar t.startDate ++ "T" ++ "090000") ++ "/" ++
            (formatDateForGoogleCalendar t.endDate ++ "T" ++ "180000")) ∈ exportTaskParams t) ∧
    (t.startDate ≠ t.endDate →
        ("dates", formatDateForGoogleCalendar t.startDate ++ "/" ++
            formatDateForGoogleCalendar (succDay t.endDate)) ∈ exportTaskParams t) ∧
    ("ctz", "Asia/Tokyo") ∈ exportTaskParams t := by
  have hfdt : ∀ d b, formatDateTimeForGoogleCalendar d b =
      formatDateForGoogleCalendar d ++ "T" ++ ((if b then "18" else "09") ++ "0000") := by
    intro d b
    unfold formatDateTimeForGoogleCalendar
    rw [String.append_assoc]
  refine ⟨?_, ?_, ?_⟩
  · intro hsame
    unfold exportTaskParams createGoogleCalendarUrlParams
    rw [if_pos hsame, hfdt t.startDate false, hfdt t.endDate true]
    simp
  · intro hne
    unfold exportTaskParams createGoogleCalendarUrlParams
    rw [if_neg hne, jsAddDays_one he]
    simp
  · unfold exportTaskParams createGoogleCalendarUrlParams
    split_ifs <;> simp

/-- Witness for C8 on the multi-day scenario task. -/
theorem calendarUrl_dates_policy_witness :
    ("dates", formatDateForGoogleCalendar scenarioTaskA.startDate ++ "/" ++
        formatDateForGoogleCalendar (succDay scenarioTaskA.endDate)) ∈
      exportTaskParams scenarioTaskA ∧
    ("ctz", "Asia/Tokyo") ∈ exportTaskParams scenarioTaskA :=
  ⟨(calendarUrl_dates_policy scenarioTaskA (by decide)).2.1 (by decide),
   (calendarUrl_dates_policy scenarioTaskA (by decide)).2.2⟩

/-! ## Claim C9: AI request sanitization and client-side rejection -/

/-- C9 (amended): an accepted rewrite request embeds the instruction with
angle brackets stripped and truncated to 500 characters, and the YAML merely
truncated to 10000 characters (no angle-bracket stripping); an input matching
one of the script-injection patterns is rejected with an error before the
network call. -/
theorem aiSanitize_policy (hasApiKey : Bool) (currentYaml userInstruction : String) :
    (∀ i y, updateTasksViaAiPrepare hasApiKey currentYaml userInstruction = .ok (i, y) →
        i = jsSubstring (stripAngles userInstruction) 500 ∧
        y = jsSubstring currentYaml 10000 ∧
        validateRequest (jsonStringifyPair currentYaml userInstruction) = true) ∧
    (validateRequest (jsonStringifyPair currentYaml userInstruction) = false →
        ∃ e, updateTasksViaAiPrepare hasApiKey currentYaml userInstruction = .error e) := by
  unfold updateTasksViaAiPrepare
  constructor
  · intro i y h
    split_ifs at h with h1 h2 h3 h4 <;>
      first
      | exact Except.noConfusion h
      | (simp only [Except.ok.injEq, Prod.mk.injEq] at h
         obtain ⟨hi, hy⟩ := h
         exact ⟨hi.symm, hy.symm, by simpa using h4⟩)
  · intro hv
    split_ifs with h1 h2 h3 h4 <;>
      first
      | exact ⟨_, rfl⟩
      | (rw [hv] at h4
         exact absurd rfl h4)

/-- Witness for C9 (amended): an injection-free request with an angle
bracket in the YAML and a long instruction is accepted with exactly these
sanitized components, and a request containing an eval call is rejected. -/
theorem aiSanitize_policy_witness :
    ((updateTasksViaAiPrepare true "<a: 1>" "do <it> now" = .ok ("do it now", "<a: 1>")) ∧
      "do it now" = jsSubstring (stripAngles "do <it> now") 500 ∧
      "<a: 1>" = jsSubstring "<a: 1>" 10000) ∧
    (∃ e, updateTasksViaAiPrepare true "eval (x)" "go" = .error e) :=
  ⟨⟨rfl,
    ((aiSanitize_policy true "<a: 1>" "do <it> now").1 "do it now" "<a: 1>" rfl).1,
    ((aiSanitize_policy true "<a: 1>" "do <it> now").1 "do it now" "<a: 1>" rfl).2.1⟩,
   (aiSanitize_policy true "eval (x)" "go").2 (by decide)⟩

/-- Counterexample for C9 as stated: the YAML payload is not angle-bracket
stripped — the accepted request embeds `"<a: 1>"` verbatim, which differs
from the spec-described strip-then-truncate sanitization. -/
theorem aiSanitize_yaml_counterexample :
    updateTasksViaAiPrepare true "<a: 1>" "add" = .ok ("add", "<a: 1>") ∧
    sanitizedYaml "<a: 1>" = "<a: 1>" ∧
    specSanitizedYaml "<a: 1>" = "a: 1" ∧
    sanitizedYaml "<a: 1>" ≠ specSanitizedYaml "<a: 1>" := by
  refine ⟨rfl, rfl, rfl, by decide⟩

set_option maxRecDepth 4000 in
/-- Counterexample for C2 as stated: at month granularity, a task dated
1970-01-31 dragged by +1 month and then by -1 month lands on 1970-02-03,
not back on 1970-01-31 (setMonth overflows January 31 into March). -/
theorem dragShift_month_counterexample :
    shiftByUnits .month 1 (⟨1970, 1, 31⟩ : CivilDate) = ⟨1970, 3, 3⟩ ∧
    shiftByUnits .month (-1) (shiftByUnits .month 1 (⟨1970, 1, 31⟩ : CivilDate)) =
      ⟨1970, 2, 3⟩ ∧
    shiftByUnits .month (-1) (shiftByUnits .month 1 (⟨1970, 1, 31⟩ : CivilDate)) ≠
      ⟨1970, 1, 31⟩ := by
  refine ⟨by decide, by decide, by decide⟩

/-! ## Claim C4: the axis window covers every task, offsets are nonnegative -/

/-- `setDate(n)` moves the timestamp by the day-of-month difference. -/
theorem toDays_jsSetDate {d : CivilDate} (h : d.Valid) (n : Int) :
    toDays (jsSetDate d n) = toDays d + (n - d.day) := by
  obtain ⟨hm1, hm2, hd1, hd2⟩ := h
  unfold jsSetDate
  rw [jsMkDate_eq d.year (d.month - 1) n (by omega) (by omega), toDays_fromDays]
  have h1 : d.month - 1 + 1 = d.month := by omega
  rw [h1]
  have h2 := toDays_day_one d.year d.month d.day
  have h3 : (⟨d.year, d.month, d.day⟩ : CivilDate) = d := rfl
  rw [h3] at h2
  omega

/-- Invariant of the min/max fold: the accumulator only widens, covers every
folded task, and each component is either the initial value or some folded
task's date. -/
theorem minMaxFoldl_spec (l : List Task) : ∀ acc : CivilDate × CivilDate,
    toDays (l.foldl minMaxStep acc).1 ≤ toDays acc.1 ∧
    toDays acc.2 ≤ toDays (l.foldl minMaxStep acc).2 ∧
    (∀ t ∈ l, toDays (l.foldl minMaxStep acc).1 ≤ toDays t.startDate ∧
        toDays t.endDate ≤ toDays (l.foldl minMaxStep acc).2) ∧
    ((l.foldl minMaxStep acc).1 = acc.1 ∨ ∃ t ∈ l, (l.foldl minMaxStep acc).1 = t.startDate) ∧
    ((l.foldl minMaxStep acc).2 = acc.2 ∨ ∃ t ∈ l, (l.foldl minMaxStep acc).2 = t.endDate) := by
  induction l with
  | nil =>
      intro acc
      simp [List.foldl]
  | cons t rest ih =>
      intro acc
      rw [List.foldl_cons]
      obtain ⟨ih1, ih2, ih3, ih4, ih5⟩ := ih (minMaxStep acc t)
      have hstep1 : toDays (minMaxStep acc t).1 ≤ toDays acc.1 ∧
          toDays (minMaxStep acc t).1 ≤ toDays t.startDate := by
        unfold minMaxStep
        dsimp only
        split_ifs <;> omega
      have hstep2 : toDays acc.2 ≤ toDays (minMaxStep acc t).2 ∧
          toDays t.endDate ≤ toDays (minMaxStep acc t).2 := by
        unfold minMaxStep
        dsimp only
        split_ifs <;> omega
      have hstep3 : (minMaxStep acc t).1 = acc.1 ∨ (minMaxStep acc t).1 = t.startDate := by
        unfold minMaxStep
        dsimp only
        split_ifs
        · exact Or.inr rfl
        · exact Or.inl rfl
      have hstep4 : (minMaxStep acc t).2 = acc.2 ∨ (minMaxStep acc t).2 = t.endDate := by
        unfold minMaxStep
        dsimp only
        split_ifs
        · exact Or.inr rfl
        · exact Or.inl rfl
      refine ⟨le_trans ih1 hstep1.1, le_trans hstep2.1 ih2, ?_, ?_, ?_⟩
      · intro s hs
        rcases List.mem_cons.mp hs with hst | hsrest
        · subst hst
          exact ⟨le_trans ih1 hstep1.2, le_trans hstep2.2 ih2⟩
        · exact ih3 s hsrest
      · rcases ih4 with h4 | ⟨s, hs, heq⟩
        · rcases hstep3 with h3 | h3
          · exact Or.inl (h4.trans h3)
          · exact Or.inr ⟨t, List.mem_cons_self t rest, h4.trans h3⟩
        · exact Or.inr ⟨s, List.mem_cons_of_mem t hs, heq⟩
      · rcases ih5 with h5 | ⟨s, hs, heq⟩
        · rcases hstep4 with h4 | h4
          · exact Or.inl (h5.trans h4)
          · exact Or.inr ⟨t, List.mem_cons_self t rest, h5.trans h4⟩
        · exact Or.inr ⟨s, List.mem_cons_of_mem t hs, heq⟩

/-- The month snapping in closed form: first day of the minimum's month,
last day of the maximum's month. -/
theorem snapWindow_month_eq {minD maxD : CivilDate} (hmn : minD.Valid) (hmx : maxD.Valid) :
    snapWindow .month minD maxD =
      (⟨minD.year, minD.month, 1⟩,
       ⟨maxD.year, maxD.month, daysInMonth maxD.year maxD.month⟩) := by
  obtain ⟨hm1, hm2, hd1, hd2⟩ := hmn
  obtain ⟨hm1', hm2', hd1', hd2'⟩ := hmx
  unfold snapWindow jsGetFullYear jsGetMonth
  have hfst : jsMkDate minD.year (minD.month - 1) 1 = ⟨minD.year, minD.month, 1⟩ := by
    rw [jsMkDate_eq minD.year (minD.month - 1) 1 (by omega) (by omega)]
    have h1 : minD.month - 1 + 1 = minD.month := by omega
    rw [h1]
    have h0 : toDays ⟨minD.year, minD.month, 1⟩ + (1 - 1) = toDays ⟨minD.year, minD.month, 1⟩ := by
      omega
    rw [h0]
    exact fromDays_toDays (valid_mk (by omega) (by omega) (by omega)
      (by simpa using daysInMonth_pos minD.year minD.month))
  have hsnd : jsMkDate maxD.year (maxD.month - 1 + 1) 0 =
      ⟨maxD.year, maxD.month, daysInMonth maxD.year maxD.month⟩ := by
    have hlastvalid : (⟨maxD.year, maxD.month, daysInMonth maxD.year maxD.month⟩ : CivilDate).Valid :=
      valid_mk (by omega) (by omega) (by simpa using daysInMonth_pos maxD.year maxD.month) le_rfl
    rcases show maxD.month ≤ 11 ∨ maxD.month = 12 by omega with h11 | h12
    · rw [show maxD.month - 1 + 1 = maxD.month by omega]
      rw [jsMkDate_eq maxD.year maxD.month 0 (by omega) (by omega)]
      have harg : toDays ⟨maxD.year, maxD.month + 1, 1⟩ + (0 - 1) =
          toDays ⟨maxD.year, maxD.month, daysInMonth maxD.year maxD.month⟩ := by
        have hsucc := daysBeforeMonth_succ maxD.year maxD.month (by omega) h11
        unfold toDays
        dsimp only
        omega
      rw [harg]
      exact fromDays_toDays hlastvalid
    · rw [show maxD.month - 1 + 1 = maxD.month by omega, h12]
      unfold jsMkDate
      norm_num
      have h31 : daysInMonth maxD.year 12 = 31 := by
        unfold daysInMonth; split_ifs <;> omega
      have harg : toDays ⟨maxD.year + 1, 1, 1⟩ + -1 = toDays ⟨maxD.year, 12, 31⟩ := by
        have hy := daysBeforeYear_succ maxD.year
        have hfirst := daysBeforeMonth_first (maxD.year + 1)
        have hlast := daysBeforeMonth_last maxD.year
        unfold toDays
        dsimp only
        omega
      rw [harg, h31]
      exact fromDays_toDays (valid_mk (by omega) (by omega) (by omega) (by omega))
  rw [hfst, hsnd]

/-- Outward snapping never shrinks the window. -/
theorem snapWindow_le (u : TimeUnit) {minD maxD : CivilDate}
    (hmn : minD.Valid) (hmx : maxD.Valid) :
    toDays (snapWindow u minD maxD).1 ≤ toDays minD ∧
    toDays maxD ≤ toDays (snapWindow u minD maxD).2 := by
  cases u with
  | day => exact ⟨le_rfl, le_rfl⟩
  | week =>
      unfold snapWindow
      dsimp only
      rw [toDays_jsSetDate hmn, toDays_jsSetDate hmx]
      unfold jsGetDate jsGetDay
      constructor
      · split_ifs <;> omega
      · split_ifs <;> omega
  | month =>
      rw [snapWindow_month_eq hmn hmx]
      obtain ⟨hm1, hm2, hd1, hd2⟩ := hmn
      obtain ⟨hm1', hm2', hd1', hd2'⟩ := hmx
      unfold toDays
      dsimp only
      constructor <;> omega

/-- C4: for every granularity and non-empty valid task list, the snapped
window covers every task's full range; under week snapping the window runs
Monday to Sunday and under month snapping first to last day of month; and
getOffsetUnits is never negative. -/
theorem chartWindow_covers (u : TimeUnit) (tasks : List Task) (mn mx : CivilDate)
    (hval : ∀ t ∈ tasks, t.startDate.Valid ∧ t.endDate.Valid)
    (hwin : chartWindow u tasks = some (mn, mx)) :
    (∀ t ∈ tasks, toDays mn ≤ toDays t.startDate ∧ toDays t.endDate ≤ toDays mx) ∧
    (u = .week → jsGetDay mn = 1 ∧ jsGetDay mx = 0) ∧
    (u = .month → mn.day = 1 ∧ mx.day = daysInMonth mx.year mx.month) ∧
    (∀ date, 0 ≤ getOffsetUnits u (dateUnits u mn mx) date) := by
  cases hsort : ganttSortedTasks tasks with
  | nil =>
      unfold chartWindow at hwin
      rw [hsort] at hwin
      exact absurd hwin (by simp)
  | cons t0 rest =>
      unfold chartWindow at hwin
      rw [hsort] at hwin
      simp only [Option.some.injEq] at hwin
      have hmem : ∀ t ∈ t0 :: rest, t ∈ tasks := by
        intro t ht
        rw [← hsort] at ht
        exact List.mem_mergeSort.mp ht
      obtain ⟨f1, f2, f3, f4, f5⟩ :=
        minMaxFoldl_spec (t0 :: rest) (t0.startDate, t0.endDate)
      have hmm : minMaxFold t0 (t0 :: rest) =
          (t0 :: rest).foldl minMaxStep (t0.startDate, t0.endDate) := rfl
      have hmnv : (minMaxFold t0 (t0 :: rest)).1.Valid := by
        rw [hmm]
        rcases f4 with h | ⟨s, hs, heq⟩
        · rw [h]
          exact (hval t0 (hmem t0 (List.mem_cons_self t0 rest))).1
        · rw [heq]
          exact (hval s (hmem s hs)).1
      have hmxv : (minMaxFold t0 (t0 :: rest)).2.Valid := by
        rw [hmm]
        rcases f5 with h | ⟨s, hs, heq⟩
        · rw [h]
          exact (hval t0 (hmem t0 (List.mem_cons_self t0 rest))).2
        · rw [heq]
          exact (hval s (hmem s hs)).2
      have hsnap := snapWindow_le u hmnv hmxv
      have hmn : mn = (snapWindow u (minMaxFold t0 (t0 :: rest)).1
          (minMaxFold t0 (t0 :: rest)).2).1 := by rw [hwin]
      have hmx : mx = (snapWindow u (minMaxFold t0 (t0 :: rest)).1
          (minMaxFold t0 (t0 :: rest)).2).2 := by rw [hwin]
      refine ⟨?_, ?_, ?_, ?_⟩
      · intro t ht
        have htin : t ∈ t0 :: rest := by
          rw [← hsort]
          exact List.mem_mergeSort.mpr ht
        have hb := f3 t htin
        rw [hmm] at hsnap
        constructor
        · exact le_trans (hmn ▸ hsnap.1) hb.1
        · exact le_trans hb.2 (hmx ▸ hsnap.2)
      · intro hu
        subst hu
        have hmnd := toDays_jsSetDate hmnv
          (jsGetDate (minMaxFold t0 (t0 :: rest)).1 - jsGetDay (minMaxFold t0 (t0 :: rest)).1 +
            (if jsGetDay (minMaxFold t0 (t0 :: rest)).1 = 0 then -6 else 1))
        have hmxd := toDays_jsSetDate hmxv
          (jsGetDate (minMaxFold t0 (t0 :: rest)).2 +
            (7 - jsGetDay (minMaxFold t0 (t0 :: rest)).2 +
              (if jsGetDay (minMaxFold t0 (t0 :: rest)).2 = 0 then -6 else 1) - 1))
        constructor
        · rw [hmn]
          unfold snapWindow
          dsimp only
          unfold jsGetDay at *
          unfold jsGetDate at *
          rw [hmnd]
          split_ifs at * <;> omega
        · rw [hmx]
          unfold snapWindow
          dsimp only
          unfold jsGetDay at *
          unfold jsGetDate at *
          rw [hmxd]
          split_ifs at * <;> omega
      · intro hu
        subst hu
        rw [hmn, hmx, snapWindow_month_eq hmnv hmxv]
        exact ⟨rfl, rfl⟩
      · intro date
        unfold getOffsetUnits
        exact le_max_left 0 _

unseal List.merge List.mergeSort in
/-- Witness for C4: a one-task list in week view snaps to the enclosing
Monday-to-Sunday week (1970-01-05 … 1970-01-11), covers the task, and gives
it a nonnegative offset. -/
theorem chartWindow_covers_witness :
    (toDays (⟨1970, 1, 5⟩ : CivilDate) ≤ toDays scenarioTaskC4.startDate ∧
      toDays scenarioTaskC4.endDate ≤ toDays (⟨1970, 1, 11⟩ : CivilDate)) ∧
    (jsGetDay ⟨1970, 1, 5⟩ = 1 ∧ jsGetDay ⟨1970, 1, 11⟩ = 0) ∧
    0 ≤ getOffsetUnits .week (dateUnits .week ⟨1970, 1, 5⟩ ⟨1970, 1, 11⟩)
        scenarioTaskC4.startDate :=
  have h := chartWindow_covers .week [scenarioTaskC4] ⟨1970, 1, 5⟩ ⟨1970, 1, 11⟩
    (by decide) (by decide)
  ⟨h.1 scenarioTaskC4 (List.mem_cons_self _ _), h.2.1 rfl,
   h.2.2.2 scenarioTaskC4.startDate⟩

end TodoGantt
